import Mathlib

/-!
Verification development for the ZFS resource lifecycle middleware
(`plugins/zfs/resource_crud.py` and `plugins/zfs/destroy_impl.py`).

The Python code is shallowly embedded: paths are `String`s, engine calls
are an injected record of pure functions returning `Except`, mutation of
the shared result dictionary is explicit state passing over an
association list with Python-dict update semantics, and Python exceptions
become `Except` error values.  The external storage-engine handle and the
`has_internal_path` predicate are collaborators outside this core and are
taken as parameters, exactly as the interface section of the design
document prescribes.
-/

namespace ZFSMiddleware

/-! ## String utilities mirroring the Python primitives used by the source -/

/-- Python `str.split(sep)` for a one-character separator, accumulator form. -/
def splitOnCharAux (sep : Char) : List Char → List Char → List String
  | [], acc => [String.mk acc.reverse]
  | c :: cs, acc =>
    if c = sep then String.mk acc.reverse :: splitOnCharAux sep cs []
    else splitOnCharAux sep cs (c :: acc)

/-- Python `s.split(sep)` for a one-character separator (`"".split` gives `[""]`). -/
def splitOnChar (sep : Char) (s : String) : List String :=
  splitOnCharAux sep s.data []

/-- The `/`-delimited components of a relative POSIX path as normalised by
`pathlib.PurePosixPath.parts`: empty components and `.` components vanish. -/
def pathParts (s : String) : List String :=
  (splitOnChar '/' s).filter (fun c => !(c == "") && !(c == "."))

/-- `pathlib.Path(sp).is_relative_to(pathlib.Path(p))` for relative paths:
the components of `p` are a prefix of the components of `sp`. -/
def isRelativeToB (sp p : String) : Bool :=
  (pathParts p).isPrefixOf (pathParts sp)

/-- Python string `<` on code points, on the underlying character lists. -/
def charListLt : List Char → List Char → Bool
  | _, [] => false
  | [], _ :: _ => true
  | a :: as, b :: bs =>
    if a.toNat < b.toNat then true
    else if b.toNat < a.toNat then false
    else charListLt as bs

/-- Python string comparison `s < t` (lexicographic on code points). -/
def strLtB (s t : String) : Bool := charListLt s.data t.data

/-- One insertion step of a descending insertion sort w.r.t. `strLtB`. -/
def insertDesc (a : String) : List String → List String
  | [] => [a]
  | b :: bs => if strLtB a b then b :: insertDesc a bs else a :: b :: bs

/-- `sorted(l, reverse=True)` from `__destroy_fs_or_vols`: the descending
sort of the path strings under Python string comparison.  (The sort key is
a total order that is antisymmetric on strings, so the sorted list is
uniquely determined and an insertion sort reproduces Python `sorted`.) -/
def sortDesc (l : List String) : List String := l.foldr insertDesc []

/-- Python `repr` quote character (single quote, code point 39). -/
def quoteChar : Char := Char.ofNat 39

/-- Python `f-string` fragment for `repr` of a plain path string. -/
def pyRepr (s : String) : String := quoteChar.toString ++ s ++ quoteChar.toString

/-- Emptiness of a component after Python `str.strip()`:
true iff every character is whitespace. -/
def isBlankStr (s : String) : Bool := s.data.all Char.isWhitespace

/-! ## Data model -/

/-- `ZFSError(e.code)` comparisons made by the executor. -/
inductive ZFSErrCode where
  | EZFS_NOENT
  | EZFS_BUSY
  | other
deriving DecidableEq

/-- A `ZFSException` carrying its error code and its `str(e)` rendering. -/
structure ZFSExc where
  code : ZFSErrCode
  msg : String
deriving DecidableEq

/-- The `ValidationError` variants raised by `validate_and_parse_destroy_args`
and `validate_query_args`, carrying the values interpolated into the
corresponding message strings. -/
inductive VErr where
  | onePathRequired
  | slashAffix (path : String)
  | bookmarksUnsupported
  | recursiveRootSnap
  | zpoolNotAllowed
  | protectedPath (path : String)
  | multipleAt (path : String)
  | missingFsName (path : String)
  | missingSnapName (path : String)
  | overlapping (ancestor : String) (descendants : List String)
  | snapshotsFlagRequired
  | overlappingQuery
deriving DecidableEq

/-- Outcome of running Python validation: a `ValidationError`, or the
`IndexError` that `path[0]` raises on an empty string. -/
inductive PyErr where
  | validation (v : VErr)
  | indexError
deriving DecidableEq

/-- Which bucket `validate_and_parse_destroy_args` sorts a surviving path into. -/
inductive PathClass where
  | fsOrVol
  | snapshot
deriving DecidableEq

/-- The caller-supplied destroy request (`ZFSResourceDestroyArgs` data). -/
structure DestroyData where
  paths : List String
  recursive : Bool
  force : Bool
  defer : Bool
  allowInternal : Bool
deriving DecidableEq

/-- `lzc.ChannelProgramEnum` members used by the source. -/
inductive Script where
  | DESTROY_RESOURCES
  | DESTROY_SNAPSHOTS
deriving DecidableEq

/-- Flattened keyword arguments of one `lzc.run_channel_program` call. -/
structure ChannelArgs where
  pool_name : String
  script : Script
  readonly : Bool
  recursive : Bool
  target : String
  defer : Bool
  pattern : Option String
deriving DecidableEq

/-- One entry of `snapshots["channel_programs"]` as built at parse time:
the original path plus the channel-program arguments (the `script` key is
added later, at execution time). -/
structure SnapPlan where
  path : String
  pool_name : String
  readonly : Bool
  recursive : Bool
  target : String
  defer : Bool
  pattern : Option String
deriving DecidableEq

/-- The request after `validate_and_parse_destroy_args` succeeded:
the original fields plus `fs_or_vols` and the two snapshot buckets. -/
structure Parsed where
  paths : List String
  recursive : Bool
  force : Bool
  defer : Bool
  allowInternal : Bool
  fs_or_vols : List String
  singular : List String
  channel_programs : List SnapPlan
deriving DecidableEq

/-- The external storage-engine handle (`hdl` plus the `lzc` module), as a
record of pure oracles.  `open_resource`/`unmount` raise `ZFSException`
(their interface), the destroy entry points are caught with a broad
`except Exception` in the source, hence plain message strings. -/
structure Engine where
  openResource : String → Except ZFSExc Unit
  unmount : String → Bool → Bool → Except ZFSExc Unit
  destroyResource : String → Except String Unit
  runChannelProgram : ChannelArgs → Except String Unit
  destroySnapshots : List String → Except String Unit

/-- A log entry for each engine invocation the executor performs. -/
inductive EngineOp where
  | openResource (name : String)
  | unmount (name : String) (force recursive : Bool)
  | destroyResource (name : String)
  | runChannelProgram (args : ChannelArgs)
  | destroySnapshots (names : List String)
deriving DecidableEq

/-- The `DestroyState.results` dictionary: association list with Python
dict semantics (updating an existing key keeps its position, a new key is
appended; keys are therefore unique). -/
abbrev Results := List (String × Option String)

/-- The ordered log of engine invocations made during one execution. -/
abbrev Trace := List EngineOp

/-- `results.update({k: v})` on a Python dict. -/
def updateD (rs : Results) (k : String) (v : Option String) : Results :=
  if rs.any (fun p => p.1 == k) then
    rs.map (fun p => if p.1 == k then (k, v) else p)
  else rs ++ [(k, v)]

/-- `results.get(k)` on a Python dict. -/
def lookupD (rs : Results) (k : String) : Option (Option String) :=
  (rs.find? (fun p => p.1 == k)).map Prod.snd

/-! ## `group_paths_by_parents` and `nest_paths` -/

/-- The inner comprehension of `group_paths_by_parents`: all `sp` in
`paths` with `Path(sp).is_relative_to(Path(path))` and `sp != path`. -/
def subpathsOf (paths : List String) (path : String) : List String :=
  paths.filter (fun sp => isRelativeToB sp path && !(sp == path))

/-- `group_paths_by_parents`: every path paired with its non-empty list of
relative subpaths, in input order.  (A Python dict collapses duplicate
input paths into one key; duplicates here repeat an identical entry, which
no claim depends on.) -/
def groupPathsByParents (paths : List String) : List (String × List String) :=
  paths.filterMap (fun p =>
    if subpathsOf paths p = [] then none else some (p, subpathsOf paths p))

/-- A query-result node: `name`, `pool` and nested `children`. -/
inductive RNode where
  | mk (name : String) (pool : String) (children : List RNode)

/-- Node name accessor. -/
def RNode.name : RNode → String
  | .mk n _ _ => n

/-- Node pool accessor. -/
def RNode.pool : RNode → String
  | .mk _ p _ => p

/-- Node children accessor. -/
def RNode.children : RNode → List RNode
  | .mk _ _ c => c

/-- `pathlib.PosixPath(name).parents` rendered with `as_posix()`:
the proper ancestors of a relative path, nearest first, ending with `"."`. -/
def parentsOf (name : String) : List String :=
  let parts := pathParts name
  (List.range parts.length).map (fun k =>
    match parts.take (parts.length - 1 - k) with
    | [] => "."
    | ps => String.intercalate "/" ps)

/-- The nearest ancestor of `n` whose name is indexed in `node_map`
(which holds every input item keyed by name). -/
def firstParentIn (items : List RNode) (n : String) : Option String :=
  (parentsOf n).find? (fun pap => (items.map RNode.name).contains pap)

/-- The non-root items that the second pass of `nest_paths` appends to the
children of the node named `parentName`, in input order. -/
def attachedTo (items : List RNode) (parentName : String) : List RNode :=
  items.filter (fun it =>
    !(it.name == it.pool) && ((firstParentIn items it.name) == some parentName))

/-- The root list of `nest_paths`: first-pass pool roots (`name == pool`)
in input order, then second-pass parentless nodes in input order. -/
def rootsOf (items : List RNode) : List RNode :=
  items.filter (fun it => it.name == it.pool) ++
    items.filter (fun it =>
      !(it.name == it.pool) && (firstParentIn items it.name).isNone)

/-- Rebuild the tree that the second pass of `nest_paths` creates by
mutating shared `children` lists: a node's final children are its initial
children followed by everything attached to its name, recursively.  The
fuel bounds the ancestor-chain depth and `items.length` always suffices. -/
def buildNode (items : List RNode) : Nat → RNode → RNode
  | 0, it => it
  | Nat.succ fuel, it =>
    RNode.mk it.name it.pool
      (it.children ++ (attachedTo items it.name).map (buildNode items fuel))

/-- `nest_paths`: convert the flat node list into nested root trees. -/
def nestPaths (items : List RNode) : List RNode :=
  (rootsOf items).map (buildNode items items.length)

/-! ## `validate_and_parse_destroy_args` -/

/-- The per-path branch of the validation loop in
`validate_and_parse_destroy_args` (`resource_crud.py` lines 197-236).
`path[0]` on the empty string raises `IndexError` in Python, hence the
leading emptiness case.  `isInternal` is the external `has_internal_path`
collaborator. -/
def classifyPath (isInternal : String → Bool) (recursive adip : Bool)
    (path : String) : Except PyErr PathClass :=
  if path.data = [] then .error .indexError
  else if path.data.headD ' ' = '/' ∨ path.data.getLastD ' ' = '/' then
    .error (.validation (.slashAffix path))
  else if path.data.contains '#' then .error (.validation .bookmarksUnsupported)
  else if !path.data.contains '/' then
    if path.data.contains '@' && recursive then
      .error (.validation .recursiveRootSnap)
    else .error (.validation .zpoolNotAllowed)
  else if !adip && isInternal path then .error (.validation (.protectedPath path))
  else if path.data.contains '@' then
    if 2 < (splitOnChar '@' path).length then .error (.validation (.multipleAt path))
    else if isBlankStr ((splitOnChar '@' path).headD "") then
      .error (.validation (.missingFsName path))
    else if isBlankStr ((splitOnChar '@' path).getLastD "") then
      .error (.validation (.missingSnapName path))
    else .ok .snapshot
  else .ok .fsOrVol

/-- The whole validation loop: classify every path in order, stopping at
the first error, and return `(fs_or_vols, snapshots_temp)` in input order. -/
def classifyAll (isInternal : String → Bool) (recursive adip : Bool) :
    List String → Except PyErr (List String × List String)
  | [] => .ok ([], [])
  | p :: rest =>
    match classifyPath isInternal recursive adip p with
    | .error e => .error e
    | .ok c =>
      match classifyAll isInternal recursive adip rest with
      | .error e => .error e
      | .ok (fsv, snaps) =>
        match c with
        | .fsOrVol => .ok (p :: fsv, snaps)
        | .snapshot => .ok (fsv, p :: snaps)

/-- `i.split("@")[0]` for a validated snapshot path. -/
def srcOf (i : String) : String := (splitOnChar '@' i).headD ""

/-- `i.split("@")[-1]` for a validated snapshot path. -/
def snapNameOf (i : String) : String := (splitOnChar '@' i).getLastD ""

/-- The `channel_args` dictionary built for one snapshot path
(`resource_crud.py` lines 275-287), with `script_arguments_dict` flattened. -/
def mkSnapPlan (d : DestroyData) (i : String) : SnapPlan :=
  { path := i
    pool_name := (splitOnChar '/' (srcOf i)).headD ""
    readonly := false
    recursive := d.recursive
    target := srcOf i
    defer := d.defer
    pattern := if snapNameOf i == "*" then none else some (snapNameOf i) }

/-- The snapshot-separation loop (`resource_crud.py` lines 263-287).
A snapshot whose source is itself a requested fs/vol is dropped.  The
singular branch appends the stale loop variable `path` from the earlier,
already-completed validation loop - which at that point holds the LAST
element of `data["paths"]` - rather than the current item `i`; `lastPath`
models that variable, faithfully reproducing the slip. -/
def parseSnapshots (d : DestroyData) (fsv : List String) (lastPath : String) :
    List String → List String × List SnapPlan
  | [] => ([], [])
  | i :: rest =>
    if fsv.contains (srcOf i) then parseSnapshots d fsv lastPath rest
    else if !(snapNameOf i == "*") && !d.recursive then
      (lastPath :: (parseSnapshots d fsv lastPath rest).1,
        (parseSnapshots d fsv lastPath rest).2)
    else
      ((parseSnapshots d fsv lastPath rest).1,
        mkSnapPlan d i :: (parseSnapshots d fsv lastPath rest).2)

/-- Assemble the parsed request once classification has succeeded. -/
def mkParsed (d : DestroyData) (fsv snaps : List String) : Parsed :=
  let sc := parseSnapshots d fsv (d.paths.getLastD "") snaps
  { paths := d.paths
    recursive := d.recursive
    force := d.force
    defer := d.defer
    allowInternal := d.allowInternal
    fs_or_vols := fsv
    singular := sc.1
    channel_programs := sc.2 }

/-- `validate_and_parse_destroy_args` (`resource_crud.py` lines 189-289):
empty-list check, per-path classification, the recursive overlap check
(which raises on the first overlapping group), then snapshot separation. -/
def validateAndParse (isInternal : String → Bool) (d : DestroyData) :
    Except PyErr Parsed :=
  if d.paths.isEmpty then .error (.validation .onePathRequired)
  else
    match classifyAll isInternal d.recursive d.allowInternal d.paths with
    | .error e => .error e
    | .ok (fsv, snaps) =>
      if d.recursive then
        match groupPathsByParents fsv with
        | (k, v) :: _ => .error (.validation (.overlapping k v))
        | [] => .ok (mkParsed d fsv snaps)
      else .ok (mkParsed d fsv snaps)

/-! ## `destroy_impl` execution -/

/-- The channel-program arguments built inline by `__destroy_fs_or_vols`
for a recursive fs/vol destroy (`destroy_impl.py` lines 49-58). -/
def fsChannelArgs (a : Parsed) (i : String) : ChannelArgs :=
  { pool_name := (splitOnChar '/' i).headD ""
    script := .DESTROY_RESOURCES
    readonly := false
    recursive := a.recursive
    target := i
    defer := a.defer
    pattern := none }

/-- One iteration of the `__destroy_fs_or_vols` loop body for path `i`:
the engine operations performed and the value recorded under key `i`
(`none` on success, the failure string otherwise).  Every branch of the
Python loop body records exactly one entry for `i`. -/
def fsStep (eng : Engine) (a : Parsed) (i : String) : Trace × Option String :=
  match eng.openResource i with
  | .error e =>
    ([.openResource i],
      if e.code = .EZFS_NOENT then some (pyRepr i ++ " does not exist")
      else some e.msg)
  | .ok _ =>
    match eng.unmount i a.force a.recursive with
    | .error e =>
      ([.openResource i, .unmount i a.force a.recursive],
        if e.code = .EZFS_BUSY ∧ a.recursive = false then
          some ("Failed to unmount, does " ++ pyRepr i ++ " have children?")
        else some e.msg)
    | .ok _ =>
      if a.recursive then
        ([.openResource i, .unmount i a.force a.recursive,
            .runChannelProgram (fsChannelArgs a i)],
          match eng.runChannelProgram (fsChannelArgs a i) with
          | .error m => some m
          | .ok _ => none)
      else
        ([.openResource i, .unmount i a.force a.recursive, .destroyResource i],
          match eng.destroyResource i with
          | .error m => some m
          | .ok _ => none)

/-- `__destroy_fs_or_vols`: iterate over the reverse-sorted fs/vol paths,
recording each outcome in the results dict and logging engine calls. -/
def destroyFsOrVols (eng : Engine) (a : Parsed) : Results × Trace :=
  (sortDesc a.fs_or_vols).foldl
    (fun acc i => (updateD acc.1 i (fsStep eng a i).2, acc.2 ++ (fsStep eng a i).1))
    ([], [])

/-- Execution-time channel arguments of a planned snapshot destroy:
the parse-time entry with its `path` key popped and `script` added. -/
def toChannelArgs (sp : SnapPlan) : ChannelArgs :=
  { pool_name := sp.pool_name
    script := .DESTROY_SNAPSHOTS
    readonly := sp.readonly
    recursive := sp.recursive
    target := sp.target
    defer := sp.defer
    pattern := sp.pattern }

/-- First half of `__destroy_snapshots`: one batched
`lzc.destroy_snapshots` call for the singular bucket (skipped when the
bucket is empty), its outcome fanned out to every member key. -/
def singularPhase (eng : Engine) (a : Parsed) (st : Results × Trace) :
    Results × Trace :=
  if a.singular.isEmpty then st
  else
    match eng.destroySnapshots a.singular with
    | .error m =>
      (a.singular.foldl (fun rs i => updateD rs i (some m)) st.1,
        st.2 ++ [.destroySnapshots a.singular])
    | .ok _ =>
      (a.singular.foldl (fun rs i => updateD rs i none) st.1,
        st.2 ++ [.destroySnapshots a.singular])

/-- Second half of `__destroy_snapshots`: one channel program per planned
entry, keyed by the popped `path` of each entry. -/
def channelPhase (eng : Engine) (a : Parsed) (st : Results × Trace) :
    Results × Trace :=
  a.channel_programs.foldl
    (fun acc sp =>
      (updateD acc.1 sp.path
          (match eng.runChannelProgram (toChannelArgs sp) with
            | .error m => some m
            | .ok _ => none),
        acc.2 ++ [.runChannelProgram (toChannelArgs sp)]))
    st

/-- `__destroy_snapshots`: the singular batch then the channel programs. -/
def destroySnapsPhase (eng : Engine) (a : Parsed) (st : Results × Trace) :
    Results × Trace :=
  channelPhase eng a (singularPhase eng a st)

/-- `destroy_impl`: run the fs/vol phase then the snapshot phase over a
fresh results dict, returning the final dict and the engine-call log. -/
def destroyImplModel (eng : Engine) (a : Parsed) : Results × Trace :=
  destroySnapsPhase eng a (destroyFsOrVols eng a)

/-- The `zfs.resource.destroy_impl` service method: validate and parse,
then execute; validation failures abort before any engine call. -/
def destroyFull (eng : Engine) (isInternal : String → Bool) (d : DestroyData) :
    Except PyErr (Results × Trace) :=
  (validateAndParse isInternal d).map (fun a => destroyImplModel eng a)

/-! ## Query validation and dispatch -/

/-- The caller-supplied query arguments relevant to validation and
result shaping. -/
structure QueryData where
  paths : List String
  get_children : Bool
  get_snapshots : Bool
  nest_results : Bool
deriving DecidableEq

/-- Modelled from the spec: the defaults of `ZFSResourceQueryArgs` (whose
schema module is not part of this tree) - empty path list and all flags
false, per the produced-interface section of the design document. -/
def defaultQueryData : QueryData :=
  { paths := [], get_children := false, get_snapshots := false,
    nest_results := false }

/-- `validate_query_args` (`resource_crud.py` lines 114-130): reject any
path containing `@`, then reject overlapping paths when `get_children`. -/
def validateQueryArgs (q : QueryData) : Except VErr Unit :=
  if q.paths.any (fun p => p.data.contains '@') then .error .snapshotsFlagRequired
  else if q.get_children && !(groupPathsByParents q.paths).isEmpty then
    .error .overlappingQuery
  else .ok ()

/-- `query_impl` (`resource_crud.py` lines 132-146): with explicit
arguments, validate first and only then invoke the external engine query;
optionally nest the flat results.  With `data = None` the defaults are
used unvalidated. -/
def queryImplModel (engineQuery : QueryData → List RNode) :
    Option QueryData → Except VErr (List RNode)
  | none =>
    if defaultQueryData.nest_results then .ok (nestPaths (engineQuery defaultQueryData))
    else .ok (engineQuery defaultQueryData)
  | some d =>
    match validateQueryArgs d with
    | .error e => .error e
    | .ok _ =>
      if d.nest_results then .ok (nestPaths (engineQuery d))
      else .ok (engineQuery d)

/-! ## Derived notions used to state the claims -/

/-- Strict ancestor/descendant relation between two distinct request
paths: component-wise path-prefix on the `/`-delimited (normalised)
segments - not substring matching - exactly the condition
`group_paths_by_parents` tests. -/
def overlapsWith (p q : String) : Prop :=
  pathParts p <+: pathParts q ∧ q ≠ p

instance (p q : String) : Decidable (overlapsWith p q) := by
  unfold overlapsWith; infer_instance

/-- Strict descendant as a raw path-string extension: `q` is `p` plus a
`/`-separated suffix. -/
def isStrictDescendant (q p : String) : Prop :=
  ∃ r : String, q = p ++ "/" ++ r

/-- The filter deciding whether a snapshot path joins the singular bucket:
its source is not a requested fs/vol, its name is literal, and the request
is not recursive. -/
def survivesLit (d : DestroyData) (fsv : List String) (i : String) : Bool :=
  !(fsv.contains (srcOf i)) && (!(snapNameOf i == "*") && !d.recursive)

/-- The filter deciding whether a snapshot path becomes a channel program:
its source is not a requested fs/vol, and its name is the wildcard or the
request is recursive. -/
def survivesCP (d : DestroyData) (fsv : List String) (i : String) : Bool :=
  !(fsv.contains (srcOf i)) && ((snapNameOf i == "*") || d.recursive)

/-! ## Concrete fixtures used by witnesses and counterexamples -/

/-- The trivial `has_internal_path` collaborator: nothing is protected. -/
def noInternal : String → Bool := fun _ => false

/-- An engine on which every operation succeeds. -/
def allOkEngine : Engine :=
  { openResource := fun _ => .ok ()
    unmount := fun _ _ _ => .ok ()
    destroyResource := fun _ => .ok ()
    runChannelProgram := fun _ => .ok ()
    destroySnapshots := fun _ => .ok () }

/-- An engine whose `open_resource` raises `EZFS_NOENT` for `tank/a` and
whose other operations all succeed. -/
def engNoEntA : Engine :=
  { openResource := fun i =>
      if i == "tank/a" then .error ⟨.EZFS_NOENT, "noent"⟩ else .ok ()
    unmount := fun _ _ _ => .ok ()
    destroyResource := fun _ => .ok ()
    runChannelProgram := fun _ => .ok ()
    destroySnapshots := fun _ => .ok () }

/-- Destroy request naming a dataset and one of its own snapshots. -/
def reqDropSnap : DestroyData :=
  { paths := ["tank/a", "tank/a@s"], recursive := false, force := false,
    defer := false, allowInternal := false }

/-- Destroy request with one literal snapshot followed by a dataset. -/
def reqLitSnap : DestroyData :=
  { paths := ["tank/b@s1", "tank/c"], recursive := false, force := false,
    defer := false, allowInternal := false }

/-- Destroy request with one literal snapshot followed by a dataset,
used with the `EZFS_NOENT` engine. -/
def reqLostFailure : DestroyData :=
  { paths := ["tank/b@s", "tank/a"], recursive := false, force := false,
    defer := false, allowInternal := false }

/-- Parsed form of `reqLostFailure` (note the mis-keyed singular bucket). -/
def parsedLostFailure : Parsed :=
  { paths := ["tank/b@s", "tank/a"], recursive := false, force := false,
    defer := false, allowInternal := false, fs_or_vols := ["tank/a"],
    singular := ["tank/a"], channel_programs := [] }

/-- Recursive destroy request for a single dataset. -/
def reqRecursiveOne : DestroyData :=
  { paths := ["tank/a"], recursive := true, force := false,
    defer := false, allowInternal := false }

/-- Parsed form of `reqRecursiveOne`. -/
def parsedRecursiveOne : Parsed :=
  { paths := ["tank/a"], recursive := true, force := false, defer := false,
    allowInternal := false, fs_or_vols := ["tank/a"], singular := [],
    channel_programs := [] }

/-- Destroy request for a pool-root snapshot with `recursive = false`. -/
def reqRootSnap : DestroyData :=
  { paths := ["tank@snap"], recursive := false, force := false,
    defer := false, allowInternal := false }

/-- Recursive destroy request with overlapping dataset paths. -/
def reqOverlap : DestroyData :=
  { paths := ["a/b", "a/b/c"], recursive := true, force := false,
    defer := false, allowInternal := false }

/-- Destroy request containing only the empty path string. -/
def reqEmptyPath : DestroyData :=
  { paths := [""], recursive := false, force := false,
    defer := false, allowInternal := false }

/-- Parsed form of `reqLitSnap` (note the mis-keyed singular bucket). -/
def parsedLitSnap : Parsed :=
  { paths := ["tank/b@s1", "tank/c"], recursive := false, force := false,
    defer := false, allowInternal := false, fs_or_vols := ["tank/c"],
    singular := ["tank/c"], channel_programs := [] }

/-- Parsed form of `reqDropSnap` (the snapshot entry was dropped). -/
def parsedDropSnap : Parsed :=
  { paths := ["tank/a", "tank/a@s"], recursive := false, force := false,
    defer := false, allowInternal := false, fs_or_vols := ["tank/a"],
    singular := [], channel_programs := [] }

/-- Flat query node `tank` (a pool root). -/
def nodeTank : RNode := .mk "tank" "tank" []

/-- Flat query node `tank/a`. -/
def nodeTankA : RNode := .mk "tank/a" "tank" []

/-- Flat query node `tank/a/b`. -/
def nodeTankAB : RNode := .mk "tank/a/b" "tank" []

/-- The nested tree every permutation of the three flat nodes produces. -/
def expectedNest : List RNode :=
  [RNode.mk "tank" "tank" [RNode.mk "tank/a" "tank" [RNode.mk "tank/a/b" "tank" []]]]

/-- Query arguments with overlapping paths and `get_children = true`. -/
def queryOverlapData : QueryData :=
  { paths := ["tank/a", "tank/a/b"], get_children := true,
    get_snapshots := false, nest_results := false }


/-! ## Properties of the Python string order -/

theorem charListLt_asymm : ∀ (a b : List Char),
    charListLt a b = true → charListLt b a = false
  | [], [], h => by simp [charListLt] at h
  | [], _ :: _, _ => by simp [charListLt]
  | _ :: _, [], h => by simp [charListLt] at h
  | x :: xs, y :: ys, h => by
    simp only [charListLt] at h ⊢
    rcases Nat.lt_trichotomy x.toNat y.toNat with hlt | heq | hgt
    · simp [hlt, Nat.lt_asymm hlt]
    · simp only [heq, Nat.lt_irrefl, if_false] at h ⊢
      exact charListLt_asymm xs ys h
    · simp [hgt, Nat.lt_asymm hgt] at h

theorem charListLt_negtrans : ∀ (a b c : List Char),
    charListLt a b = false → charListLt b c = false → charListLt a c = false := by
  intro a
  induction a with
  | nil =>
    intro b c h1 h2
    cases b with
    | nil =>
      cases c with
      | nil => simp [charListLt]
      | cons z zs => simp [charListLt] at h2
    | cons y ys => simp [charListLt] at h1
  | cons x xs ih =>
    intro b c h1 h2
    cases c with
    | nil => simp [charListLt]
    | cons z zs =>
      cases b with
      | nil => simp [charListLt] at h2
      | cons y ys =>
        simp only [charListLt] at h1 h2 ⊢
        by_cases hxy : x.toNat < y.toNat
        · simp [hxy] at h1
        · by_cases hyz : y.toNat < z.toNat
          · simp [hyz] at h2
          · have hxz : ¬ x.toNat < z.toNat := by omega
            simp only [hxy, hyz, hxz, if_false] at h1 h2 ⊢
            by_cases hzx : z.toNat < x.toNat
            · simp [hzx]
            · simp only [hzx, if_false]
              by_cases hyx : y.toNat < x.toNat
              · omega
              · by_cases hzy : z.toNat < y.toNat
                · omega
                · simp only [hyx, if_false] at h1
                  simp only [hzy, if_false] at h2
                  exact ih ys zs h1 h2

theorem charListLt_self_append (l : List Char) (c : Char) (m : List Char) :
    charListLt l (l ++ c :: m) = true := by
  induction l with
  | nil => simp [charListLt]
  | cons x xs ih => simp [charListLt, Nat.lt_irrefl, ih]

theorem strLtB_asymm {a b : String} (h : strLtB a b = true) : strLtB b a = false :=
  charListLt_asymm a.data b.data h

theorem strLtB_negtrans {a b c : String} (h1 : strLtB a b = false)
    (h2 : strLtB b c = false) : strLtB a c = false :=
  charListLt_negtrans a.data b.data c.data h1 h2

/-- A strict raw-path descendant compares strictly above its ancestor in
Python string order, because the ancestor is a proper prefix. -/
theorem strLtB_of_strictDescendant {p q : String} (h : isStrictDescendant q p) :
    strLtB p q = true := by
  obtain ⟨r, rfl⟩ := h
  unfold strLtB
  have hd : (p ++ "/" ++ r).data = p.data ++ '/' :: r.data := by
    rw [String.data_append, String.data_append]
    simp
  rw [hd]
  exact charListLt_self_append p.data _ r.data

/-! ## Correctness of the descending sort -/

theorem perm_insertDesc (a : String) (l : List String) :
    (insertDesc a l).Perm (a :: l) := by
  induction l with
  | nil => exact List.Perm.refl _
  | cons b bs ih =>
    unfold insertDesc
    by_cases h : strLtB a b = true
    · rw [if_pos h]
      exact (ih.cons b).trans (List.Perm.swap a b bs)
    · rw [if_neg h]

theorem sortDesc_perm (l : List String) : (sortDesc l).Perm l := by
  induction l with
  | nil => exact List.Perm.refl _
  | cons a as ih =>
    exact (perm_insertDesc a (sortDesc as)).trans (ih.cons a)

theorem pairwise_insertDesc (a : String) (l : List String)
    (hl : l.Pairwise (fun x y => strLtB x y = false)) :
    (insertDesc a l).Pairwise (fun x y => strLtB x y = false) := by
  induction l with
  | nil => simp [insertDesc]
  | cons b bs ih =>
    rcases List.pairwise_cons.mp hl with ⟨hb, hbs⟩
    unfold insertDesc
    by_cases h : strLtB a b = true
    · rw [if_pos h]
      refine List.pairwise_cons.mpr ⟨?_, ih hbs⟩
      intro x hx
      rcases List.mem_cons.mp ((perm_insertDesc a bs).mem_iff.mp hx) with rfl | hxbs
      · exact strLtB_asymm h
      · exact hb x hxbs
    · rw [if_neg h]
      have ha : strLtB a b = false := by
        simpa using h
      refine List.pairwise_cons.mpr ⟨?_, hl⟩
      intro x hx
      rcases List.mem_cons.mp hx with rfl | hxbs
      · exact ha
      · exact strLtB_negtrans ha (hb x hxbs)

theorem sortDesc_pairwise (l : List String) :
    (sortDesc l).Pairwise (fun x y => strLtB x y = false) := by
  induction l with
  | nil => simp [sortDesc]
  | cons a as ih => exact pairwise_insertDesc a (sortDesc as) ih

/-! ## Enumerating permutations of two- and three-element lists -/

theorem perm_two {α : Type} {l : List α} {y z : α} (h : l.Perm [y, z]) :
    l = [y, z] ∨ l = [z, y] := by
  obtain ⟨b, c, rfl⟩ : ∃ b c, l = [b, c] := by
    cases l with
    | nil => simpa using h.length_eq
    | cons b t =>
      cases t with
      | nil => simpa using h.length_eq
      | cons c t2 =>
        cases t2 with
        | nil => exact ⟨b, c, rfl⟩
        | cons d t3 => simpa using h.length_eq
  have hb := h.mem_iff.mp (List.mem_cons_self b [c])
  rcases List.mem_cons.mp hb with rfl | hb2
  · have hc := List.perm_singleton.mp ((List.perm_cons b).mp h)
    left
    rw [show c = z from by simpa using hc]
  · rcases List.mem_singleton.mp hb2 with rfl
    have h' := h.trans (List.Perm.swap b y [])
    have hc := List.perm_singleton.mp ((List.perm_cons b).mp h')
    right
    rw [show c = y from by simpa using hc]

theorem perm_three {α : Type} {l : List α} {x y z : α} (h : l.Perm [x, y, z]) :
    l = [x, y, z] ∨ l = [x, z, y] ∨ l = [y, x, z] ∨ l = [y, z, x] ∨
      l = [z, x, y] ∨ l = [z, y, x] := by
  obtain ⟨a, b, c, rfl⟩ : ∃ a b c, l = [a, b, c] := by
    cases l with
    | nil => simpa using h.length_eq
    | cons a t =>
      cases t with
      | nil => simpa using h.length_eq
      | cons b t2 =>
        cases t2 with
        | nil => simpa using h.length_eq
        | cons c t3 =>
          cases t3 with
          | nil => exact ⟨a, b, c, rfl⟩
          | cons e t4 => simpa using h.length_eq
  have ha := h.mem_iff.mp (List.mem_cons_self a [b, c])
  rcases List.mem_cons.mp ha with rfl | ha2
  · rcases perm_two ((List.perm_cons a).mp h) with h2 | h2
    · obtain ⟨rfl, rfl⟩ : b = y ∧ c = z := by simpa using h2
      exact Or.inl rfl
    · obtain ⟨rfl, rfl⟩ : b = z ∧ c = y := by simpa using h2
      exact Or.inr (Or.inl rfl)
  · rcases List.mem_cons.mp ha2 with rfl | ha3
    · have h' := h.trans (List.Perm.swap a x [z])
      rcases perm_two ((List.perm_cons a).mp h') with h2 | h2
      · obtain ⟨rfl, rfl⟩ : b = x ∧ c = z := by simpa using h2
        exact Or.inr (Or.inr (Or.inl rfl))
      · obtain ⟨rfl, rfl⟩ : b = z ∧ c = x := by simpa using h2
        exact Or.inr (Or.inr (Or.inr (Or.inl rfl)))
    · rcases List.mem_singleton.mp ha3 with rfl
      have t : List.Perm [x, y, a] [a, x, y] :=
        ((List.Perm.swap a y []).cons x).trans (List.Perm.swap a x [y])
      have h' := h.trans t
      rcases perm_two ((List.perm_cons a).mp h') with h2 | h2
      · obtain ⟨rfl, rfl⟩ : b = x ∧ c = y := by simpa using h2
        exact Or.inr (Or.inr (Or.inr (Or.inr (Or.inl rfl))))
      · obtain ⟨rfl, rfl⟩ : b = y ∧ c = x := by simpa using h2
        exact Or.inr (Or.inr (Or.inr (Or.inr (Or.inr rfl))))

/-! ## Dictionary lemmas for the results mapping -/

theorem any_key_iff (rs : Results) (k : String) :
    (rs.any (fun p => p.1 == k) = true) ↔ k ∈ rs.map Prod.fst := by
  simp only [List.any_eq_true, List.mem_map, beq_iff_eq]

theorem map_fst_mapUpdate (rs : Results) (k : String) (v : Option String) :
    (rs.map (fun p => if p.1 == k then (k, v) else p)).map Prod.fst
      = rs.map Prod.fst := by
  induction rs with
  | nil => rfl
  | cons p ps ih =>
    simp only [List.map_cons, ih]
    congr 1
    by_cases hpk : p.1 = k
    · simp [hpk]
    · simp [beq_iff_eq, hpk]

theorem mem_map_fst_updateD {rs : Results} {k a : String} {v : Option String} :
    a ∈ (updateD rs k v).map Prod.fst ↔ a ∈ rs.map Prod.fst ∨ a = k := by
  unfold updateD
  by_cases h : rs.any (fun p => p.1 == k) = true
  · rw [if_pos h, map_fst_mapUpdate]
    have hk := (any_key_iff rs k).mp h
    constructor
    · exact Or.inl
    · rintro (ha | rfl)
      · exact ha
      · exact hk
  · rw [if_neg h]
    simp

theorem nodup_map_fst_updateD {rs : Results} {k : String} {v : Option String}
    (h : (rs.map Prod.fst).Nodup) : ((updateD rs k v).map Prod.fst).Nodup := by
  unfold updateD
  by_cases hk : rs.any (fun p => p.1 == k) = true
  · rw [if_pos hk, map_fst_mapUpdate]
    exact h
  · rw [if_neg hk]
    have hnk : k ∉ rs.map Prod.fst := fun hm => hk ((any_key_iff rs k).mpr hm)
    simp [List.nodup_append, h, hnk]

theorem find?_cons_pos {α : Type} (pr : α → Bool) (x : α) (l : List α)
    (h : pr x = true) : (x :: l).find? pr = some x :=
  List.find?_cons_of_pos l h

theorem find?_cons_neg {α : Type} (pr : α → Bool) (x : α) (l : List α)
    (h : pr x = false) : (x :: l).find? pr = l.find? pr :=
  List.find?_cons_of_neg l (by simp [h])

theorem find?_mapUpdate (rs : Results) (k a : String) (v : Option String) :
    (rs.map (fun p => if p.1 == k then (k, v) else p)).find? (fun p => p.1 == a)
      = if a = k then (rs.find? (fun p => p.1 == k)).map (fun _ => (k, v))
        else rs.find? (fun p => p.1 == a) := by
  induction rs with
  | nil => by_cases h : a = k <;> simp [h]
  | cons p ps ih =>
    simp only [List.map_cons]
    by_cases hpk : p.1 = k
    · rw [if_pos (show (p.1 == k) = true by simpa using hpk)]
      by_cases hak : a = k
      · subst hak
        rw [find?_cons_pos (fun q => q.1 == a) (a, v) _ (by simp),
          find?_cons_pos (fun q => q.1 == a) p _ (by simpa using hpk),
          if_pos rfl]
        rfl
      · rw [if_neg hak,
          find?_cons_neg (fun q => q.1 == a) (k, v) _ (by
            simp only [beq_eq_false_iff_ne, ne_eq]
            exact fun h => hak h.symm),
          find?_cons_neg (fun q => q.1 == a) p _ (by
            simp only [beq_eq_false_iff_ne, ne_eq]
            exact fun h => hak (h.symm.trans hpk))]
        rw [ih, if_neg hak]
    · rw [if_neg (show ¬ ((p.1 == k) = true) by simpa using hpk)]
      by_cases hak : a = k
      · subst hak
        rw [if_pos rfl,
          find?_cons_neg (fun q => q.1 == a) p _ (by
            simp only [beq_eq_false_iff_ne, ne_eq]
            exact hpk),
          find?_cons_neg (fun q => q.1 == a) p _ (by
            simp only [beq_eq_false_iff_ne, ne_eq]
            exact hpk)]
        rw [ih, if_pos rfl]
      · rw [if_neg hak]
        by_cases hpa : p.1 = a
        · rw [find?_cons_pos (fun q => q.1 == a) p _ (by simpa using hpa),
            find?_cons_pos (fun q => q.1 == a) p _ (by simpa using hpa)]
        · rw [find?_cons_neg (fun q => q.1 == a) p _ (by
              simp only [beq_eq_false_iff_ne, ne_eq]
              exact hpa),
            find?_cons_neg (fun q => q.1 == a) p _ (by
              simp only [beq_eq_false_iff_ne, ne_eq]
              exact hpa)]
          rw [ih, if_neg hak]

theorem lookupD_updateD (rs : Results) (k a : String) (v : Option String) :
    lookupD (updateD rs k v) a = if a = k then some v else lookupD rs a := by
  unfold updateD lookupD
  by_cases hk : rs.any (fun p => p.1 == k) = true
  · rw [if_pos hk, find?_mapUpdate]
    by_cases hak : a = k
    · rw [if_pos hak, if_pos hak]
      obtain ⟨x, hx, hpx⟩ := List.any_eq_true.mp hk
      have hsome : (rs.find? (fun p => p.1 == k)).isSome :=
        List.find?_isSome.mpr ⟨x, hx, hpx⟩
      obtain ⟨q, hq⟩ := Option.isSome_iff_exists.mp hsome
      rw [hq]
      rfl
    · rw [if_neg hak, if_neg hak]
  · rw [if_neg hk, List.find?_append]
    by_cases hak : a = k
    · subst hak
      have hnone : rs.find? (fun p => p.1 == a) = none :=
        List.find?_eq_none.mpr (fun x hx hpx => hk (List.any_eq_true.mpr ⟨x, hx, hpx⟩))
      rw [hnone, if_pos rfl,
        find?_cons_pos (fun q => q.1 == a) (a, v) _ (by simp)]
      rfl
    · rw [find?_cons_neg (fun q => q.1 == a) (k, v) _ (by
          simp only [beq_eq_false_iff_ne, ne_eq]
          exact fun h => hak h.symm),
        if_neg hak, List.find?_nil, Option.or_none]

/-! ## Fold lemmas for the executor -/

theorem foldl_updateD_split {α : Type} (key : α → String) (val : α → Option String)
    (tr : α → Trace) :
    ∀ (l : List α) (init : Results × Trace),
      l.foldl (fun acc x => (updateD acc.1 (key x) (val x), acc.2 ++ tr x)) init
        = (l.foldl (fun rs x => updateD rs (key x) (val x)) init.1,
            init.2 ++ (l.map tr).flatten) := by
  intro l
  induction l with
  | nil => intro init; simp
  | cons x xs ih =>
    intro init
    rw [List.foldl_cons, ih, List.foldl_cons]
    simp [List.append_assoc]

theorem foldl_updateD_mem {α : Type} (key : α → String) (val : α → Option String) :
    ∀ (l : List α) (init : Results) (k : String),
      k ∈ (l.foldl (fun rs x => updateD rs (key x) (val x)) init).map Prod.fst
        ↔ k ∈ init.map Prod.fst ∨ k ∈ l.map key := by
  intro l
  induction l with
  | nil => intro init k; simp
  | cons x xs ih =>
    intro init k
    rw [List.foldl_cons, ih]
    rw [mem_map_fst_updateD]
    simp only [List.map_cons, List.mem_cons]
    tauto

theorem foldl_updateD_nodup {α : Type} (key : α → String) (val : α → Option String) :
    ∀ (l : List α) (init : Results), (init.map Prod.fst).Nodup →
      ((l.foldl (fun rs x => updateD rs (key x) (val x)) init).map Prod.fst).Nodup := by
  intro l
  induction l with
  | nil => intro init h; simpa using h
  | cons x xs ih =>
    intro init h
    rw [List.foldl_cons]
    exact ih _ (nodup_map_fst_updateD h)

theorem foldl_pair_mem {α : Type} (key : α → String) (val : α → Option String)
    (tr : α → Trace) (l : List α) (st : Results × Trace) (k : String) :
    k ∈ ((l.foldl (fun acc x => (updateD acc.1 (key x) (val x), acc.2 ++ tr x)) st).1).map
        Prod.fst
      ↔ k ∈ st.1.map Prod.fst ∨ k ∈ l.map key := by
  rw [foldl_updateD_split]
  exact foldl_updateD_mem key val l st.1 k

theorem foldl_pair_nodup {α : Type} (key : α → String) (val : α → Option String)
    (tr : α → Trace) (l : List α) (st : Results × Trace)
    (h : (st.1.map Prod.fst).Nodup) :
    (((l.foldl (fun acc x => (updateD acc.1 (key x) (val x), acc.2 ++ tr x)) st).1).map
        Prod.fst).Nodup := by
  rw [foldl_updateD_split]
  exact foldl_updateD_nodup key val l st.1 h

theorem foldl_updateD_lookup (f : String → Option String) :
    ∀ (l : List String) (init : Results) (k : String),
      lookupD (l.foldl (fun rs i => updateD rs i (f i)) init) k
        = if k ∈ l then some (f k) else lookupD init k := by
  intro l
  induction l with
  | nil => intro init k; simp
  | cons i is ih =>
    intro init k
    rw [List.foldl_cons, ih, lookupD_updateD]
    by_cases hmem : k ∈ is
    · simp [hmem, List.mem_cons]
    · by_cases hk : k = i
      · subst hk
        simp [hmem]
      · simp [hmem, hk]

/-! ## Key-set and lookup characterisation of the executor phases -/

theorem mem_keys_destroyFsOrVols (eng : Engine) (a : Parsed) (k : String) :
    k ∈ (destroyFsOrVols eng a).1.map Prod.fst ↔ k ∈ a.fs_or_vols := by
  unfold destroyFsOrVols
  have h := foldl_pair_mem (fun i : String => i) (fun i => (fsStep eng a i).2)
    (fun i => (fsStep eng a i).1) (sortDesc a.fs_or_vols) ([], []) k
  refine Iff.trans (Iff.trans h ?_) ((sortDesc_perm a.fs_or_vols).mem_iff)
  simp

theorem nodup_keys_destroyFsOrVols (eng : Engine) (a : Parsed) :
    ((destroyFsOrVols eng a).1.map Prod.fst).Nodup := by
  unfold destroyFsOrVols
  exact foldl_pair_nodup (fun i : String => i) (fun i => (fsStep eng a i).2)
    (fun i => (fsStep eng a i).1) (sortDesc a.fs_or_vols) ([], []) (by simp)

theorem lookupD_destroyFsOrVols (eng : Engine) (a : Parsed) (k : String) :
    lookupD (destroyFsOrVols eng a).1 k
      = if k ∈ a.fs_or_vols then some (fsStep eng a k).2 else none := by
  unfold destroyFsOrVols
  rw [foldl_updateD_split (fun i : String => i) (fun i => (fsStep eng a i).2)
    (fun i => (fsStep eng a i).1) (sortDesc a.fs_or_vols) ([], [])]
  have h : lookupD ((sortDesc a.fs_or_vols).foldl
        (fun rs i => updateD rs i (fsStep eng a i).2) []) k
      = if k ∈ sortDesc a.fs_or_vols then some (fsStep eng a k).2
        else lookupD [] k :=
    foldl_updateD_lookup (fun i => (fsStep eng a i).2) (sortDesc a.fs_or_vols) [] k
  rw [h]
  by_cases hm : k ∈ a.fs_or_vols
  · rw [if_pos ((sortDesc_perm a.fs_or_vols).mem_iff.mpr hm), if_pos hm]
  · rw [if_neg (fun hc => hm ((sortDesc_perm a.fs_or_vols).mem_iff.mp hc)),
      if_neg hm]
    rfl

theorem mem_keys_singularPhase (eng : Engine) (a : Parsed) (st : Results × Trace)
    (k : String) :
    k ∈ (singularPhase eng a st).1.map Prod.fst
      ↔ k ∈ st.1.map Prod.fst ∨ k ∈ a.singular := by
  unfold singularPhase
  by_cases hs : a.singular.isEmpty
  · rw [if_pos hs]
    have he : a.singular = [] := by simpa using hs
    simp [he]
  · rw [if_neg hs]
    cases hd : eng.destroySnapshots a.singular with
    | error m =>
      have h : k ∈ (a.singular.foldl (fun rs i => updateD rs i (some m)) st.1).map
            Prod.fst
          ↔ k ∈ st.1.map Prod.fst ∨ k ∈ a.singular.map (fun i => i) :=
        foldl_updateD_mem (fun i : String => i) (fun _ => some m) a.singular st.1 k
      simpa using h
    | ok u =>
      have h : k ∈ (a.singular.foldl (fun rs i => updateD rs i none) st.1).map
            Prod.fst
          ↔ k ∈ st.1.map Prod.fst ∨ k ∈ a.singular.map (fun i => i) :=
        foldl_updateD_mem (fun i : String => i) (fun _ => none) a.singular st.1 k
      simpa using h

theorem nodup_keys_singularPhase (eng : Engine) (a : Parsed) (st : Results × Trace)
    (h : (st.1.map Prod.fst).Nodup) :
    ((singularPhase eng a st).1.map Prod.fst).Nodup := by
  unfold singularPhase
  by_cases hs : a.singular.isEmpty
  · rw [if_pos hs]
    exact h
  · rw [if_neg hs]
    cases hd : eng.destroySnapshots a.singular with
    | error m =>
      exact foldl_updateD_nodup (fun i : String => i) (fun _ => some m) a.singular st.1 h
    | ok u =>
      exact foldl_updateD_nodup (fun i : String => i) (fun _ => none) a.singular st.1 h

theorem mem_keys_channelPhase (eng : Engine) (a : Parsed) (st : Results × Trace)
    (k : String) :
    k ∈ (channelPhase eng a st).1.map Prod.fst
      ↔ k ∈ st.1.map Prod.fst ∨ k ∈ a.channel_programs.map SnapPlan.path := by
  unfold channelPhase
  exact foldl_pair_mem SnapPlan.path
    (fun sp => match eng.runChannelProgram (toChannelArgs sp) with
      | .error m => some m
      | .ok _ => none)
    (fun sp => [EngineOp.runChannelProgram (toChannelArgs sp)])
    a.channel_programs st k

theorem nodup_keys_channelPhase (eng : Engine) (a : Parsed) (st : Results × Trace)
    (h : (st.1.map Prod.fst).Nodup) :
    ((channelPhase eng a st).1.map Prod.fst).Nodup := by
  unfold channelPhase
  exact foldl_pair_nodup SnapPlan.path
    (fun sp => match eng.runChannelProgram (toChannelArgs sp) with
      | .error m => some m
      | .ok _ => none)
    (fun sp => [EngineOp.runChannelProgram (toChannelArgs sp)])
    a.channel_programs st h

theorem mem_keys_destroyImplModel (eng : Engine) (a : Parsed) (k : String) :
    k ∈ (destroyImplModel eng a).1.map Prod.fst
      ↔ k ∈ a.fs_or_vols ∨ k ∈ a.singular
          ∨ k ∈ a.channel_programs.map SnapPlan.path := by
  unfold destroyImplModel destroySnapsPhase
  rw [mem_keys_channelPhase, mem_keys_singularPhase, mem_keys_destroyFsOrVols]
  tauto

theorem nodup_keys_destroyImplModel (eng : Engine) (a : Parsed) :
    ((destroyImplModel eng a).1.map Prod.fst).Nodup := by
  unfold destroyImplModel destroySnapsPhase
  exact nodup_keys_channelPhase eng a _
    (nodup_keys_singularPhase eng a _ (nodup_keys_destroyFsOrVols eng a))

/-! ## Characterisation of classification and snapshot separation -/

theorem classifyPath_ok (isInternal : String → Bool) (rec adip : Bool)
    (p : String) (c : PathClass)
    (h : classifyPath isInternal rec adip p = .ok c) :
    (c = .fsOrVol ∧ p.data.contains '@' = false)
    ∨ (c = .snapshot ∧ p.data.contains '@' = true) := by
  unfold classifyPath at h
  split_ifs at h with h1 h2 h3 h4 h5 h6 h7 h8 h9 h10 <;>
    simp only [reduceCtorEq, Except.ok.injEq] at h
  · exact Or.inr ⟨h.symm, h7⟩
  · exact Or.inl ⟨h.symm, by simpa using h7⟩

theorem classifyAll_ok (isInternal : String → Bool) (rec adip : Bool) :
    ∀ (ps fsv snaps : List String),
      classifyAll isInternal rec adip ps = .ok (fsv, snaps) →
        fsv = ps.filter (fun p => !p.data.contains '@')
        ∧ snaps = ps.filter (fun p => p.data.contains '@') := by
  intro ps
  induction ps with
  | nil =>
    intro fsv snaps h
    simp only [classifyAll, Except.ok.injEq, Prod.mk.injEq] at h
    obtain ⟨rfl, rfl⟩ := h
    simp
  | cons p rest ih =>
    intro fsv snaps h
    unfold classifyAll at h
    cases hc : classifyPath isInternal rec adip p with
    | error e =>
      rw [hc] at h
      simp at h
    | ok c =>
      rw [hc] at h
      cases hrest : classifyAll isInternal rec adip rest with
      | error e =>
        rw [hrest] at h
        simp at h
      | ok pr =>
        obtain ⟨fsv0, snaps0⟩ := pr
        rw [hrest] at h
        obtain ⟨hf, hs⟩ := ih fsv0 snaps0 hrest
        rcases classifyPath_ok isInternal rec adip p c hc with ⟨rfl, hat⟩ | ⟨rfl, hat⟩
        · simp only [Except.ok.injEq, Prod.mk.injEq] at h
          obtain ⟨rfl, rfl⟩ := h
          constructor
          · rw [List.filter_cons_of_pos (by simpa using hat), hf]
          · rw [List.filter_cons_of_neg (by simpa using hat), hs]
        · simp only [Except.ok.injEq, Prod.mk.injEq] at h
          obtain ⟨rfl, rfl⟩ := h
          constructor
          · rw [List.filter_cons_of_neg (by simpa using hat), hf]
          · rw [List.filter_cons_of_pos (by simpa using hat), hs]

theorem overlapsB_iff (p q : String) :
    (isRelativeToB q p && !(q == p)) = true ↔ overlapsWith p q := by
  unfold isRelativeToB overlapsWith
  rw [Bool.and_eq_true, List.isPrefixOf_iff_prefix]
  simp

theorem subpathsOf_eq_nil_iff (l : List String) (p : String) :
    subpathsOf l p = [] ↔ ∀ q ∈ l, ¬ overlapsWith p q := by
  unfold subpathsOf
  rw [List.filter_eq_nil_iff]
  simp only [overlapsB_iff]

theorem groupPathsByParents_eq_nil_iff (l : List String) :
    groupPathsByParents l = [] ↔ ∀ p ∈ l, ∀ q ∈ l, ¬ overlapsWith p q := by
  unfold groupPathsByParents
  rw [List.filterMap_eq_nil_iff]
  constructor
  · intro h p hp q hq hov
    have hpn := h p hp
    by_cases hn : subpathsOf l p = []
    · exact ((subpathsOf_eq_nil_iff l p).mp hn q hq) hov
    · rw [if_neg hn] at hpn
      simp at hpn
  · intro h p hp
    rw [if_pos ((subpathsOf_eq_nil_iff l p).mpr (h p hp))]

theorem mem_groupPathsByParents {l : List String} {k : String} {v : List String}
    (h : (k, v) ∈ groupPathsByParents l) :
    k ∈ l ∧ v = subpathsOf l k ∧ v ≠ [] := by
  unfold groupPathsByParents at h
  obtain ⟨a, ha, hfa⟩ := List.mem_filterMap.mp h
  by_cases hn : subpathsOf l a = []
  · rw [if_pos hn] at hfa
    simp at hfa
  · rw [if_neg hn] at hfa
    obtain ⟨rfl, rfl⟩ : a = k ∧ subpathsOf l a = v := by simpa using hfa
    exact ⟨ha, rfl, hn⟩

theorem parseSnapshots_fst (d : DestroyData) (fsv : List String) (lastPath : String) :
    ∀ snaps, (parseSnapshots d fsv lastPath snaps).1
      = (snaps.filter (survivesLit d fsv)).map (fun _ => lastPath) := by
  intro snaps
  induction snaps with
  | nil => rfl
  | cons i rest ih =>
    unfold parseSnapshots
    by_cases h1 : fsv.contains (srcOf i) = true
    · rw [if_pos h1,
        List.filter_cons_of_neg (by
          unfold survivesLit
          rw [h1]
          simp),
        ih]
    · rw [if_neg h1]
      by_cases h2 : (!(snapNameOf i == "*") && !d.recursive) = true
      · rw [if_pos h2,
          List.filter_cons_of_pos (by
            unfold survivesLit
            rw [Bool.and_eq_true]
            exact ⟨by simpa using h1, h2⟩),
          List.map_cons]
        simpa using ih
      · rw [if_neg h2,
          List.filter_cons_of_neg (by
            unfold survivesLit
            rw [Bool.and_eq_true]
            rintro ⟨hA, hB⟩
            exact h2 hB)]
        simpa using ih

theorem parseSnapshots_snd (d : DestroyData) (fsv : List String) (lastPath : String) :
    ∀ snaps, (parseSnapshots d fsv lastPath snaps).2
      = (snaps.filter (survivesCP d fsv)).map (mkSnapPlan d) := by
  intro snaps
  induction snaps with
  | nil => rfl
  | cons i rest ih =>
    unfold parseSnapshots
    by_cases h1 : fsv.contains (srcOf i) = true
    · rw [if_pos h1,
        List.filter_cons_of_neg (by
          unfold survivesCP
          rw [h1]
          simp),
        ih]
    · rw [if_neg h1]
      by_cases h2 : (!(snapNameOf i == "*") && !d.recursive) = true
      · rw [if_pos h2,
          List.filter_cons_of_neg (by
            unfold survivesCP
            rw [Bool.and_eq_true] at h2 ⊢
            rintro ⟨hA, hB⟩
            obtain ⟨hw, hr⟩ := h2
            rw [Bool.or_eq_true] at hB
            rcases hB with hx | hx
            · rw [hx] at hw
              simp at hw
            · rw [hx] at hr
              simp at hr)]
        simpa using ih
      · rw [if_neg h2,
          List.filter_cons_of_pos (by
            unfold survivesCP
            rw [Bool.and_eq_true]
            refine ⟨by simpa using h1, ?_⟩
            rw [Bool.or_eq_true]
            by_cases hw : (snapNameOf i == "*") = true
            · exact Or.inl hw
            · by_cases hr : d.recursive = true
              · exact Or.inr hr
              · exfalso
                apply h2
                rw [Bool.and_eq_true]
                exact ⟨by simpa using hw, by simpa using hr⟩),
          List.map_cons]
        simpa using ih

theorem map_const_eq_replicate {α : Type} (l : List α) (b : String) :
    l.map (fun _ => b) = List.replicate l.length b := by
  induction l with
  | nil => rfl
  | cons x xs ih => simp [List.replicate, ih]

/-! ## Structure of `validateAndParse` -/

theorem validateAndParse_ok_elim {isInternal : String → Bool} {d : DestroyData}
    {parsed : Parsed} (h : validateAndParse isInternal d = .ok parsed) :
    ∃ fsv snaps,
      classifyAll isInternal d.recursive d.allowInternal d.paths = .ok (fsv, snaps)
      ∧ parsed = mkParsed d fsv snaps
      ∧ (d.recursive = true → groupPathsByParents fsv = []) := by
  unfold validateAndParse at h
  by_cases hne : d.paths.isEmpty
  · rw [if_pos hne] at h
    simp at h
  · rw [if_neg hne] at h
    split at h
    · simp at h
    next fsv snaps heq =>
      by_cases hrec : d.recursive = true
      · rw [if_pos hrec] at h
        split at h
        · simp at h
        next heq2 =>
          refine ⟨fsv, snaps, heq, ?_, fun _ => heq2⟩
          simpa using h.symm
      · rw [if_neg hrec] at h
        exact ⟨fsv, snaps, heq, by simpa using h.symm, fun hc => absurd hc hrec⟩

theorem validateAndParse_eq_of_classify {isInternal : String → Bool}
    {d : DestroyData} {fsv snaps : List String}
    (hne : ¬ (d.paths.isEmpty = true))
    (hca : classifyAll isInternal d.recursive d.allowInternal d.paths
      = .ok (fsv, snaps)) :
    validateAndParse isInternal d
      = if d.recursive then
          match groupPathsByParents fsv with
          | (k, v) :: _ => .error (.validation (.overlapping k v))
          | [] => .ok (mkParsed d fsv snaps)
        else .ok (mkParsed d fsv snaps) := by
  unfold validateAndParse
  rw [if_neg hne, hca]

/-! ## Claim theorems -/

/-- C3 counterexample: the claim asserts that a no-slash path containing
`@` with `recursive = false` (a pool-root snapshot deletion) passes
classification; on the code, `"tank@snap"` with `recursive = false` is
rejected with the whole-pool `ValidationError`, because both branches of
the no-slash case raise. -/
theorem c3_counterexample :
    validateAndParse noInternal reqRootSnap
      = .error (.validation .zpoolNotAllowed) := by rfl

/-- C3 (amended): classification accepts no path without a `/` at all.
A no-slash path that survives the slash-affix and bookmark checks is
always rejected: with `@` present and `recursive` true it raises the
root-snapshot-recursion error, and in every other case - including a
pool-root snapshot with `recursive` false - it raises the
destroying-zpools error. -/
theorem c3_no_slash_always_rejected (isInternal : String → Bool)
    (rec adip : Bool) (p : String) (hne : p.data ≠ [])
    (hslash : ¬ (p.data.headD ' ' = '/' ∨ p.data.getLastD ' ' = '/'))
    (hbook : ¬ p.data.contains '#' = true)
    (hnoslash : ¬ p.data.contains '/' = true) :
    classifyPath isInternal rec adip p
      = .error (.validation
          (if p.data.contains '@' && rec then VErr.recursiveRootSnap
            else VErr.zpoolNotAllowed)) := by
  unfold classifyPath
  rw [if_neg hne, if_neg hslash, if_neg hbook,
    if_pos (show (!p.data.contains '/') = true by simpa using hnoslash)]
  by_cases h : (p.data.contains '@' && rec) = true
  · rw [if_pos h, if_pos h]
  · rw [if_neg h, if_neg h]

/-- C3 witness: the amended theorem applied to the recursive pool-root
snapshot `"tank@snap"`. -/
theorem c3_witness :
    classifyPath noInternal true false "tank@snap"
      = .error (.validation .recursiveRootSnap) := by
  have h := c3_no_slash_always_rejected noInternal true false "tank@snap"
    (by decide) (by decide) (by decide) (by decide)
  simpa using h

/-- C10: a destroy request whose path list contains the empty string (all
earlier paths classifying successfully) fails with the `IndexError` that
evaluating `path[0]` raises, not with a `ValidationError` - the
malformed-path rejection is not total over empty path strings. -/
theorem c10_empty_path_index_error (isInternal : String → Bool)
    (d : DestroyData) (pre post : List String)
    (hp : d.paths = pre ++ "" :: post)
    (hpre : ∀ p ∈ pre, ∃ c,
      classifyPath isInternal d.recursive d.allowInternal p = .ok c) :
    validateAndParse isInternal d = .error .indexError
    ∧ ∀ v, validateAndParse isInternal d ≠ .error (.validation v) := by
  have hca : classifyAll isInternal d.recursive d.allowInternal d.paths
      = .error .indexError := by
    rw [hp]
    clear hp
    induction pre with
    | nil => rfl
    | cons p pretl ih =>
      obtain ⟨c, hc⟩ := hpre p (List.mem_cons_self p pretl)
      have ih2 := ih (fun q hq => hpre q (List.mem_cons_of_mem p hq))
      rw [show (p :: pretl) ++ "" :: post = p :: (pretl ++ "" :: post) from rfl]
      unfold classifyAll
      rw [hc, ih2]
  have hmain : validateAndParse isInternal d = .error .indexError := by
    unfold validateAndParse
    rw [if_neg (show ¬ (d.paths.isEmpty = true) by simp [hp]), hca]
  refine ⟨hmain, fun v hv => ?_⟩
  rw [hmain] at hv
  simp at hv

/-- C10 witness: the request with the single path `""`. -/
theorem c10_witness :
    validateAndParse noInternal reqEmptyPath = .error .indexError
    ∧ ∀ v, validateAndParse noInternal reqEmptyPath ≠ .error (.validation v) :=
  c10_empty_path_index_error noInternal reqEmptyPath [] [] rfl (by simp)

/-- C5: in the non-recursive executor the individual fs/vol targets are
iterated in reverse lexicographic order of their path strings (the trace
of `__destroy_fs_or_vols` is the concatenation of the per-target traces
in `sortDesc` order); in that order every strict descendant occupies a
strictly earlier position than any of its ancestors, and on the set
`{"a/b/c", "a/b", "a"}` the processing order is exactly
`["a/b/c", "a/b", "a"]`. -/
theorem c5_reverse_lexicographic_order :
    (∀ (eng : Engine) (a : Parsed),
      (destroyFsOrVols eng a).2
        = ((sortDesc a.fs_or_vols).map (fun i => (fsStep eng a i).1)).flatten)
    ∧ (∀ (l : List String) (p q : String) (i j : Fin (sortDesc l).length),
        (sortDesc l).get i = p → (sortDesc l).get j = q →
        isStrictDescendant q p → (j : Nat) < (i : Nat))
    ∧ (∀ l : List String, l.Perm ["a/b/c", "a/b", "a"] →
        sortDesc l = ["a/b/c", "a/b", "a"]) := by
  refine ⟨?_, ?_, ?_⟩
  · intro eng a
    unfold destroyFsOrVols
    rw [foldl_updateD_split (fun i : String => i) (fun i => (fsStep eng a i).2)
      (fun i => (fsStep eng a i).1) (sortDesc a.fs_or_vols) ([], [])]
    simp
  · intro l p q i j hi hj hd
    by_contra hcon
    have hij : (i : Nat) ≤ (j : Nat) := Nat.le_of_not_lt hcon
    rcases Nat.eq_or_lt_of_le hij with heq | hlt
    · obtain ⟨r, hr⟩ := hd
      have hpq : p = q := by
        rw [← hi, ← hj]
        congr 1
        exact Fin.ext heq
      have hlen := congrArg String.length (hpq ▸ hr)
      rw [String.length_append, String.length_append] at hlen
      have hone : ("/" : String).length = 1 := rfl
      rw [hone] at hlen
      omega
    · have hpair := (List.pairwise_iff_get.mp (sortDesc_pairwise l)) i j hlt
      rw [hi, hj] at hpair
      rw [strLtB_of_strictDescendant hd] at hpair
      simp at hpair
  · intro l hperm
    rcases perm_three hperm with h1 | h1 | h1 | h1 | h1 | h1 <;> subst h1 <;> rfl

/-- C5 witness: the ordering theorem applied to `["a", "a/b"]` (the
descendant at position 0 precedes the ancestor at position 1) and the
concrete three-element permutation. -/
theorem c5_witness :
    ((0 : Nat) < 1)
    ∧ sortDesc ["a", "a/b/c", "a/b"] = ["a/b/c", "a/b", "a"] := by
  constructor
  · exact c5_reverse_lexicographic_order.2.1 ["a", "a/b"] "a" "a/b"
      ⟨1, by decide⟩ ⟨0, by decide⟩ (by decide) (by decide) ⟨"b", by decide⟩
  · exact c5_reverse_lexicographic_order.2.2 ["a", "a/b/c", "a/b"] (by decide)

/-- C8: for every permutation of the flat input
`[{name: "tank"}, {name: "tank/a"}, {name: "tank/a/b"}]` (each node
carrying pool `"tank"` and empty children), `nest_paths` yields exactly
one root `tank` whose single child is `tank/a`, whose single child is
`tank/a/b`; the output is invariant under input permutation. -/
theorem c8_nest_permutation_invariant (l : List RNode)
    (h : l.Perm [nodeTank, nodeTankA, nodeTankAB]) :
    nestPaths l = expectedNest := by
  rcases perm_three h with h1 | h1 | h1 | h1 | h1 | h1 <;> subst h1 <;> rfl

/-- C8 witness: the permutation `[tank/a, tank, tank/a/b]`. -/
theorem c8_witness : nestPaths [nodeTankA, nodeTank, nodeTankAB] = expectedNest :=
  c8_nest_permutation_invariant _ (List.Perm.swap nodeTank nodeTankA [nodeTankAB])

/-- C9: for every explicit query request, a `ValidationError` is returned
before the external engine query is invoked (the result is the same error
for every engine oracle) whenever some requested path contains `@`, and
whenever `get_children` is set and one requested path is a strict
component-prefix ancestor of another. -/
theorem c9_query_validation (engineQuery : QueryData → List RNode)
    (d : QueryData)
    (h : (∃ p ∈ d.paths, p.data.contains '@' = true)
      ∨ (d.get_children = true ∧ ∃ p ∈ d.paths, ∃ q ∈ d.paths, overlapsWith p q)) :
    ∃ e, queryImplModel engineQuery (some d) = .error e := by
  have hv : ∃ e, validateQueryArgs d = .error e := by
    unfold validateQueryArgs
    by_cases h1 : d.paths.any (fun p => p.data.contains '@') = true
    · rw [if_pos h1]
      exact ⟨.snapshotsFlagRequired, rfl⟩
    · rw [if_neg h1]
      rcases h with ⟨p, hp, hat⟩ | ⟨hgc, p, hp, q, hq, hov⟩
      · exact absurd (List.any_eq_true.mpr ⟨p, hp, hat⟩) h1
      · have hgnz : groupPathsByParents d.paths ≠ [] := fun hz =>
          (groupPathsByParents_eq_nil_iff d.paths).mp hz p hp q hq hov
        rw [if_pos (show (d.get_children
              && !(groupPathsByParents d.paths).isEmpty) = true by
            rw [Bool.and_eq_true]
            exact ⟨hgc, by simpa using hgnz⟩)]
        exact ⟨.overlappingQuery, rfl⟩
  obtain ⟨e, he⟩ := hv
  refine ⟨e, ?_⟩
  have hred : queryImplModel engineQuery (some d)
      = (match validateQueryArgs d with
          | .error e2 => .error e2
          | .ok _ =>
            if d.nest_results then .ok (nestPaths (engineQuery d))
            else .ok (engineQuery d)) := rfl
  rw [hred, he]

/-- C9 witness: querying `["tank/a", "tank/a/b"]` with
`get_children = true` errors for the trivial engine. -/
theorem c9_witness :
    ∃ e, queryImplModel (fun _ => ([] : List RNode)) (some queryOverlapData)
      = .error e :=
  c9_query_validation (fun _ => []) queryOverlapData
    (Or.inr ⟨rfl, "tank/a", by decide, "tank/a/b", by decide, by decide⟩)

/-- C4: for a recursive destroy request whose paths all classify
successfully, if the fs/vol bucket contains a strict ancestor/descendant
pair (component-wise path-prefix on the normalised `/`-segments, not
substring match) then validation fails - for every engine - with the
overlap `ValidationError` naming an offending ancestor together with all
of its requested descendants, before any engine call; and if no such pair
exists the ancestry grouping is empty and validation succeeds. -/
theorem c4_recursive_overlap_validation (isInternal : String → Bool)
    (d : DestroyData) (fsv snaps : List String) (hne : d.paths ≠ [])
    (hrec : d.recursive = true)
    (hca : classifyAll isInternal d.recursive d.allowInternal d.paths
      = .ok (fsv, snaps)) :
    ((¬ ∃ p ∈ fsv, ∃ q ∈ fsv, overlapsWith p q) →
        groupPathsByParents fsv = []
        ∧ validateAndParse isInternal d = .ok (mkParsed d fsv snaps))
    ∧ ((∃ p ∈ fsv, ∃ q ∈ fsv, overlapsWith p q) →
        ∃ k v, k ∈ fsv ∧ v = subpathsOf fsv k ∧ v ≠ []
          ∧ ∀ eng : Engine, destroyFull eng isInternal d
              = .error (.validation (.overlapping k v))) := by
  have hnee : ¬ (d.paths.isEmpty = true) := by simpa using hne
  constructor
  · intro hno
    have hg : groupPathsByParents fsv = [] :=
      (groupPathsByParents_eq_nil_iff fsv).mpr
        (fun p hp q hq hov => hno ⟨p, hp, q, hq, hov⟩)
    refine ⟨hg, ?_⟩
    rw [validateAndParse_eq_of_classify hnee hca, if_pos hrec, hg]
  · rintro ⟨p, hp, q, hq, hov⟩
    have hgne : groupPathsByParents fsv ≠ [] := fun hz =>
      (groupPathsByParents_eq_nil_iff fsv).mp hz p hp q hq hov
    cases hg : groupPathsByParents fsv with
    | nil => exact absurd hg hgne
    | cons kv t =>
      obtain ⟨k, v⟩ := kv
      have hmem := mem_groupPathsByParents
        (show (k, v) ∈ groupPathsByParents fsv by
          rw [hg]
          exact List.mem_cons_self _ _)
      refine ⟨k, v, hmem.1, hmem.2.1, hmem.2.2, fun eng => ?_⟩
      unfold destroyFull
      rw [validateAndParse_eq_of_classify hnee hca, if_pos hrec, hg]
      rfl

/-- C4 witness: the recursive request on `["a/b", "a/b/c"]` raises the
overlap error naming `a/b` and its descendant `a/b/c`. -/
theorem c4_witness :
    ∃ k v, k ∈ ["a/b", "a/b/c"] ∧ v = subpathsOf ["a/b", "a/b/c"] k ∧ v ≠ []
      ∧ ∀ eng : Engine, destroyFull eng noInternal reqOverlap
          = .error (.validation (.overlapping k v)) :=
  (c4_recursive_overlap_validation noInternal reqOverlap ["a/b", "a/b/c"] []
      (by decide) rfl rfl).2
    ⟨"a/b", by decide, "a/b/c", by decide, by decide⟩

/-- C2 evaluation at the failing input: the request
`{"paths": ["tank/b@s1", "tank/c"]}` with `recursive = false` contains one
literal non-recursive snapshot whose source is not a requested fs/vol, so
per the claim the batched snapshot-destroy membership must be exactly
`["tank/b@s1"]`; the code instead appends the stale validation-loop
variable `path` - the last raw request path - producing `["tank/c"]`. -/
theorem c2_singular_batch_bug :
    validateAndParse noInternal reqLitSnap = .ok parsedLitSnap
    ∧ parsedLitSnap.singular = ["tank/c"]
    ∧ "tank/b@s1" ∉ parsedLitSnap.singular := by
  refine ⟨by rfl, rfl, by decide⟩

/-- C7 evaluation at the failing input: on
`{"paths": ["tank/b@s", "tank/a"]}` with an engine whose
`open_resource("tank/a")` raises `EZFS_NOENT` and whose
`destroy_snapshots` succeeds, the fs/vol phase records the does-not-exist
failure under `"tank/a"`, but the mis-keyed singular snapshot batch then
overwrites that same key with success, and the own path of the snapshot
gets no entry - so an engine failure is not captured as the entry of its
path in the result mapping. -/
theorem c7_failure_overwritten :
    validateAndParse noInternal reqLostFailure = .ok parsedLostFailure
    ∧ lookupD (destroyFsOrVols engNoEntA parsedLostFailure).1 "tank/a"
        = some (some (pyRepr "tank/a" ++ " does not exist"))
    ∧ lookupD (destroyImplModel engNoEntA parsedLostFailure).1 "tank/a"
        = some none
    ∧ lookupD (destroyImplModel engNoEntA parsedLostFailure).1 "tank/b@s"
        = none := by
  refine ⟨by rfl, by rfl, by rfl, by rfl⟩

/-- C1 counterexample: the validated request
`{"paths": ["tank/a", "tank/a@s"]}` on an all-success engine returns a
result mapping whose key list is exactly `["tank/a"]`: the requested
snapshot path `"tank/a@s"` (whose source is itself a requested fs/vol
path) does not appear as a key, contradicting the claim that every
originally-requested path appears exactly once. -/
theorem c1_counterexample :
    "tank/a@s" ∈ reqDropSnap.paths
    ∧ (destroyFull allOkEngine noInternal reqDropSnap).toOption.map
        (fun pr => pr.1.map Prod.fst) = some ["tank/a"]
    ∧ "tank/a@s" ∉ ["tank/a"] := by
  refine ⟨by decide, by rfl, by decide⟩

/-- C1 (amended): for every validated destroy request, the keys of the
result mapping are duplicate-free and are exactly the parsed fs/vol paths
(the requested paths containing no `@`), the singular-batch keys and the
channel-program snapshot paths.  Snapshot paths do not in general appear
as their own keys: every singular-batch key is a copy of the LAST raw
request path (the stale-variable slip), and a snapshot whose source is
itself a requested fs/vol is dropped with no key; only channel-program
entries keep their own requested `@`-path. -/
theorem c1_result_key_characterisation (eng : Engine)
    (isInternal : String → Bool) (d : DestroyData) (parsed : Parsed)
    (h : validateAndParse isInternal d = .ok parsed) :
    ((destroyImplModel eng parsed).1.map Prod.fst).Nodup
    ∧ (∀ k, k ∈ (destroyImplModel eng parsed).1.map Prod.fst
        ↔ k ∈ parsed.fs_or_vols ∨ k ∈ parsed.singular
            ∨ k ∈ parsed.channel_programs.map SnapPlan.path)
    ∧ parsed.fs_or_vols = d.paths.filter (fun p => !p.data.contains '@')
    ∧ (∃ n, parsed.singular = List.replicate n (d.paths.getLastD ""))
    ∧ (∀ sp ∈ parsed.channel_programs,
        sp.path ∈ d.paths ∧ sp.path.data.contains '@' = true) := by
  obtain ⟨fsv, snaps, hca, hparsed, hrec⟩ := validateAndParse_ok_elim h
  obtain ⟨hfsv, hsnaps⟩ :=
    classifyAll_ok isInternal d.recursive d.allowInternal d.paths fsv snaps hca
  subst hparsed
  refine ⟨nodup_keys_destroyImplModel eng _,
    fun k => mem_keys_destroyImplModel eng _ k, ?_, ?_, ?_⟩
  · rw [show (mkParsed d fsv snaps).fs_or_vols = fsv from rfl]
    exact hfsv
  · refine ⟨(snaps.filter (survivesLit d fsv)).length, ?_⟩
    rw [show (mkParsed d fsv snaps).singular
        = (parseSnapshots d fsv (d.paths.getLastD "") snaps).1 from rfl,
      parseSnapshots_fst, map_const_eq_replicate]
  · intro sp hsp
    rw [show (mkParsed d fsv snaps).channel_programs
        = (parseSnapshots d fsv (d.paths.getLastD "") snaps).2 from rfl,
      parseSnapshots_snd] at hsp
    obtain ⟨i, hi, rfl⟩ := List.mem_map.mp hsp
    have hisnap : i ∈ snaps := (List.mem_filter.mp hi).1
    rw [hsnaps] at hisnap
    exact ⟨(List.mem_filter.mp hisnap).1, (List.mem_filter.mp hisnap).2⟩

/-- C1 witness: the key characterisation applied to the request
`{"paths": ["tank/a", "tank/a@s"]}` at the dropped snapshot path. -/
theorem c1_witness :
    "tank/a@s" ∈ (destroyImplModel allOkEngine parsedDropSnap).1.map Prod.fst
      ↔ "tank/a@s" ∈ parsedDropSnap.fs_or_vols
          ∨ "tank/a@s" ∈ parsedDropSnap.singular
          ∨ "tank/a@s" ∈ parsedDropSnap.channel_programs.map SnapPlan.path :=
  (c1_result_key_characterisation allOkEngine noInternal reqDropSnap
    parsedDropSnap (by rfl)).2.1 "tank/a@s"

/-- C6 counterexample: for the validated recursive request
`{"paths": ["tank/a"], "recursive": true}` on an all-success engine, the
engine-call log contains the per-resource `open_resource("tank/a")` call
(besides the bulk invocation), contradicting the claim that no
per-resource engine operation other than the single bulk invocation is
issued for the entry. -/
theorem c6_counterexample :
    validateAndParse noInternal reqRecursiveOne = .ok parsedRecursiveOne
    ∧ parsedRecursiveOne.recursive = true
    ∧ EngineOp.openResource "tank/a"
        ∈ (destroyImplModel allOkEngine parsedRecursiveOne).2 := by
  refine ⟨by rfl, rfl, by decide⟩

/-- C6 (amended): with recursive true, each fs/vol entry is first opened
and unmounted (two per-resource engine calls the claim as stated does not
allow); when both succeed the entry is destroyed by exactly one atomic
bulk channel-program invocation whose arguments target the entry with
recursive true (covering it and all descendants), no individual
`destroy_resource` call is ever issued, and the failure message of the
bulk call (or `None` on success) is recorded against the own path key of
the entry in the fs/vol-phase results. -/
theorem c6_recursive_bulk (eng : Engine) (a : Parsed)
    (hrec : a.recursive = true) (i : String) :
    (∀ n, EngineOp.destroyResource n ∉ (fsStep eng a i).1)
    ∧ ((fsStep eng a i).1.countP
        (fun op => decide (op = .runChannelProgram (fsChannelArgs a i)))) ≤ 1
    ∧ (eng.openResource i = .ok () → eng.unmount i a.force a.recursive = .ok () →
        (fsStep eng a i).1
          = [.openResource i, .unmount i a.force a.recursive,
              .runChannelProgram (fsChannelArgs a i)]
        ∧ (fsStep eng a i).2
            = (match eng.runChannelProgram (fsChannelArgs a i) with
                | .error m => some m
                | .ok _ => none))
    ∧ (i ∈ a.fs_or_vols →
        lookupD (destroyFsOrVols eng a).1 i = some (fsStep eng a i).2) := by
  refine ⟨?_, ?_, ?_, fun hm => by rw [lookupD_destroyFsOrVols, if_pos hm]⟩
  · intro n
    unfold fsStep
    cases ho : eng.openResource i with
    | error e => simp
    | ok u =>
      cases hu : eng.unmount i a.force a.recursive with
      | error e2 => simp
      | ok u2 =>
        rw [if_pos hrec]
        simp
  · unfold fsStep
    cases ho : eng.openResource i with
    | error e => simp
    | ok u =>
      cases hu : eng.unmount i a.force a.recursive with
      | error e2 => simp
      | ok u2 =>
        rw [if_pos hrec]
        simp [List.countP_cons]
  · intro h1 h2
    constructor
    · show (fsStep eng a i).1 = _
      unfold fsStep
      rw [h1, h2, if_pos hrec]
    · show (fsStep eng a i).2 = _
      unfold fsStep
      rw [h1, h2, if_pos hrec]

/-- C6 witness: the amended theorem applied to the recursive request on
`tank/a` with the all-success engine. -/
theorem c6_witness :
    (fsStep allOkEngine parsedRecursiveOne "tank/a").1
      = [.openResource "tank/a",
          .unmount "tank/a" parsedRecursiveOne.force parsedRecursiveOne.recursive,
          .runChannelProgram (fsChannelArgs parsedRecursiveOne "tank/a")]
    ∧ (fsStep allOkEngine parsedRecursiveOne "tank/a").2
        = (match allOkEngine.runChannelProgram
              (fsChannelArgs parsedRecursiveOne "tank/a") with
            | .error m => some m
            | .ok _ => none) :=
  (c6_recursive_bulk allOkEngine parsedRecursiveOne rfl "tank/a").2.2.1 rfl rfl

end ZFSMiddleware
